import Mathlib

/-!
# go-gssheets: range addressing, table encode/decode and the credential cache

A shallow embedding of the three command packages of `cmd/gssheets`:

* `internal/upload/cmd.go`   : the encode loop of `Run` and `rangeFromRows`;
* `internal/download/cmd.go` : `defaultValueToString`, the write loop of `Run`
  and `rangeFromSheet`;
* `internal/auth/cmd.go`     : `tokenCacheFile`, `saveToken`, `TokenFromCache`.

Conventions of the embedding.

* A Go `string` is a Lean `String`.  The separator `,` and the quote are one
  byte in UTF-8, so splitting, joining and the test `len(line) == 0` agree
  between bytes and characters.
* A Go `error` is its message (`fmt.Errorf` builds exactly that string), and a
  function returning `(T, error)` returns `Except String T`.
* Diagnostics printed with `print`, `println` and `fmt.Printf` are not part of
  the state.
* Everything the code only receives from outside (the remote gateway, what
  each scanner yields, the JSON text of the token, the operating system) is a
  parameter.
-/

namespace GSSheets

/-! ## Values and strings -/

/-- A Go `interface{}` as it occurs in a cell: what the sheets client decodes
from JSON (string, number, boolean, null).  The code only ever inspects the
dynamic type, never the payload of a number, which is kept as an integer. -/
inductive Value where
  | str (s : String)
  | num (n : Int)
  | bool (b : Bool)
  | null
  deriving DecidableEq, Repr

/-- A row of a `[][]interface{}`: `none` is the nil slice that `make` leaves
in a slot that was never assigned. -/
abbrev Row := Option (List Value)

/-- The cells that `range row` visits: none for a nil row. -/
def rowCells : Row → List Value
  | none => []
  | some cs => cs

/-- Splitting a character list at every occurrence of `sep`; the result is
never empty. -/
def splitChars (sep : Char) : List Char → List (List Char)
  | [] => [[]]
  | c :: cs =>
    if c = sep then [] :: splitChars sep cs
    else
      match splitChars sep cs with
      | [] => [[c]]
      | f :: fs => (c :: f) :: fs

/-- Go `strings.Split(s, sep)` for a one-character separator. -/
def stringsSplit (s : String) (sep : Char) : List String :=
  (splitChars sep s.data).map String.mk

/-- Go `strings.Join(elems, sep)`. -/
def stringsJoin : List String → String → String
  | [], _ => ""
  | [a], _ => a
  | a :: b :: rest, sep => a ++ sep ++ stringsJoin (b :: rest) sep

/-- Go `string(x)` for an integer `x`: the UTF-8 text of the code point `x`,
and U+FFFD for every value that is not a Unicode scalar value. -/
def stringOfInt (x : Int) : String :=
  if 0 ≤ x ∧ (x.toNat < 0xd800 ∨ (0xdfff < x.toNat ∧ x.toNat < 0x110000)) then
    String.singleton (Char.ofNat x.toNat)
  else
    String.singleton (Char.ofNat 0xfffd)

/-- Whether an end column is one of the letters `A`..`Z` (codes 65..90). -/
def isColumnLetter (s : String) : Bool :=
  match s.data with
  | [c] => decide (65 ≤ c.toNat ∧ c.toNat ≤ 90)
  | _ => false

/-- Two's-complement wrap-around of `int64` arithmetic. -/
def wrapInt64 (x : Int) : Int :=
  (x + 2 ^ 63) % 2 ^ 64 - 2 ^ 63

/-! ## upload -/

namespace Upload

/-- The constant `defaultSheetName`. -/
def defaultSheetName : String := "Data"

/-- The function `rangeFromRows` of `upload/cmd.go`.  The sum
`'@' + len(cols)` cannot overflow: a slice length is far below the largest
`int`. -/
def rangeFromRows (key : String) (rows : List Row) : Except String String :=
  match rows with
  | [] => .error "at least one row is required"
  | cols :: _ =>
    if (rowCells cols).length = 0 then
      .error "at least one column is required"
    else
      let theEnd : Int := 64 + ((rowCells cols).length : Int)
      .ok (key ++ "!A:" ++ stringOfInt theEnd)

/-- The second `for s.Scan()` loop of `Run` (lines 107-127): `rows` is the
pre-sized table, `cols` the expected width (0 before the first line) and `n`
the index of the next row.  Writing past the end of `rows` is Go's run-time
panic. -/
def encodeLoop : List String → List Row → Nat → Nat → Except String (List Row)
  | [], rows, _, _ => .ok rows
  | line :: rest, rows, cols, n =>
    if line.utf8ByteSize = 0 then
      .error "has empty line"
    else
      let columns := stringsSplit line ','
      let cells := columns.map Value.str
      let store (cols1 : Nat) : Except String (List Row) :=
        if n < rows.length then
          encodeLoop rest (rows.set n (some cells)) cols1 (n + 1)
        else
          .error "panic: index out of range"
      if cols = 0 then
        store columns.length
      else if cols ≠ columns.length then
        .error ("invalid number of columns: " ++ line)
      else
        store cols

/-- The encode of `Run` (lines 104-127): `rows := make([][]interface{}, rlen)`
allocates `rlen` nil rows, `rlen` being the number of lines the counting pass
saw, and the loop fills them from `lines`, the lines the second scanner
returns. -/
def encode (rlen : Nat) (lines : List String) : Except String (List Row) :=
  encodeLoop lines (List.replicate rlen none) 0 0

/-- The row of line `i` in the words of the specification: the fields obtained
by splitting the line on the comma, each cell a string. -/
def rowOfLine (line : String) : Row :=
  some ((stringsSplit line ',').map Value.str)

/-- What one `bufio.Scanner` yields: the lines it returned and the value of
`s.Err()` once `Scan` has stopped. -/
structure Scan where
  lines : List String
  err : Option String

/-- What the second scanner reads after `r.Seek(0, 0)` (line 101), whose
result the code drops.  A file that can seek is read again from its start and
gives what the counting pass gave.  On an input that cannot seek (a pipe) the
call fails, the offset stays at the end, and the second scanner finds no
line and no error. -/
def rescan (seekable : Bool) (counted : Scan) : Scan :=
  if seekable then counted else ⟨[], none⟩

/-- A request sent to the remote service by `Run`. -/
inductive Request where
  | create (title : String) (sheetTitles : List String)
  | update (spreadsheetId range majorDimension : String) (values : List Row)
  deriving DecidableEq

/-- The remote service as `Run` sees it: the answer to
`Spreadsheets.Create(ss).Do()` (spreadsheet id and URL) and to
`Spreadsheets.Values.Update(id, rng, vRange).Do()` (HTTP status). -/
structure Gateway where
  create : String → List String → Except String (String × String)
  update : String → String → List Row → Except String Nat

/-- The function `Run` of `upload/cmd.go` from line 89 on: the requests it
sent, in order, and the error it returned (`none` for `nil`).  `counted` is
what the first scanner yields, `filled` what the second one yields after the
unchecked `r.Seek(0, 0)` (`rescan` for a file that does not change).  The
result of `Run` is unnamed, so the deferred `r.Close()` cannot change it. -/
def Run (gw : Gateway) (counted filled : Scan) : List Request × Option String :=
  -- count number of lines
  let rlen := counted.lines.length
  match counted.err with
  | some e => ([], some e)
  | none =>
    match encode rlen filled.lines with
    | .error e => ([], some e)
    | .ok rows =>
      match filled.err with
      | some e => ([], some e)
      | none =>
        match rangeFromRows defaultSheetName rows with
        | .error e => ([], some e)
        | .ok rng =>
          let creation := Request.create "test-title" [defaultSheetName]
          match gw.create "test-title" [defaultSheetName] with
          | .error e => ([creation], some e)
          | .ok (sheetID, _) =>
            let updating := Request.update sheetID rng "ROWS" rows
            match gw.update sheetID rng rows with
            | .error e => ([creation, updating], some e)
            | .ok _ => ([creation, updating], none)

/-- A remote service that accepts every request. -/
def sampleGateway : Gateway :=
  ⟨fun _ _ => .ok ("id", "url"), fun _ _ _ => .ok 200⟩

end Upload

/-! ## download -/

namespace Download

/-- The field `GridProperties` of a sheet; `ColumnCount` is an `int64`. -/
structure GridProperties where
  columnCount : Int

/-- The field `Properties` of a sheet; `GridProperties` is a pointer. -/
structure SheetProperties where
  title : String
  gridProperties : Option GridProperties

/-- The type `sheets.Sheet`, as far as `rangeFromSheet` reads it; `Properties`
is a pointer. -/
structure Sheet where
  properties : Option SheetProperties

/-- The function `rangeFromSheet` of `download/cmd.go`; `none` is the
nil-pointer panic of `sh.Properties.GridProperties.ColumnCount`. -/
def rangeFromSheet (sh : Sheet) : Option String :=
  match sh.properties with
  | none => none
  | some props =>
    match props.gridProperties with
    | none => none
    | some grid =>
      let cols := grid.columnCount
      let theEnd := wrapInt64 (64 + cols)
      some (props.title ++ "!A:" ++ stringOfInt theEnd)

/-- The function `defaultValueToString` of `download/cmd.go`. -/
def defaultValueToString (v : Value) : String :=
  match v with
  | .str s => "\"" ++ s ++ "\""
  | _ => ""

/-- The operating system as the write phase of `Run` sees it: the error of
`os.OpenFile` on the output path, of the `k`-th `fmt.Fprintln` and of
`f.Close()` (`none` for success). -/
structure FileOps where
  openErr : Option String
  writeErr : Nat → Option String
  closeErr : Option String

/-- What `Run` did to the output file and what it returned: whether the file
was opened (and thereby created), the lines handed to `fmt.Fprintln` in
order (each is written followed by a newline), and the returned error. -/
structure Outcome where
  opened : Bool
  written : List String
  err : Option String
  deriving DecidableEq

/-- The loop `for _, row := range res.Values` of `Run` (lines 125-134): `k`
counts the writes, `out` is what was written so far; a write that fails is
taken to add nothing. -/
def writeLoop (valueToString : Value → String) (writeErr : Nat → Option String) :
    List (List Value) → Nat → List String → List String × Option String
  | [], _, out => (out, none)
  | row :: rest, k, out =>
    let values := row.map valueToString
    match writeErr k with
    | some e => (out, some e)
    | none => writeLoop valueToString writeErr rest (k + 1) (out ++ [stringsJoin values ","])

/-- The function `Run` of `download/cmd.go` from line 110 on, for the fetched
grid `values` and the hook `valueToString`.  The result `err` is named, so the
deferred `f.Close()` reports its error when nothing failed before. -/
def Run (valueToString : Value → String) (os : FileOps) (values : List (List Value)) :
    Outcome :=
  if values.length ≤ 1 then
    ⟨false, [], some "the sheet is empty"⟩
  else
    match os.openErr with
    | some e => ⟨false, [], some e⟩
    | none =>
      match writeLoop valueToString os.writeErr values 0 [] with
      | (out, some e) => ⟨true, out, some e⟩
      | (out, none) => ⟨true, out, os.closeErr⟩

/-- An operating system on which every call succeeds. -/
def noFault : FileOps := ⟨none, fun _ => none, none⟩

/-- The decode of the specification, in its words: a grid of at most one row
is rejected with the empty-result error; otherwise one line per row, in
order, each the tokens of the row joined with a single comma. -/
def decodeSpec (hook : Value → String) (grid : List (List Value)) :
    Except String (List String) :=
  if grid.length ≤ 1 then .error "the sheet is empty"
  else .ok (grid.map fun row => ",".intercalate (row.map hook))

/-- A hook that prints numbers in decimal and treats every other value as
`defaultValueToString` does: the override of the specification's example. -/
def stringifyNumbers (v : Value) : String :=
  match v with
  | .num n => toString n
  | w => defaultValueToString w

/-- Reversing the default quoting of one token: the first and the last
character are removed. -/
def unquote (token : String) : String :=
  String.mk token.data.tail.dropLast

end Download

/-! ## auth -/

namespace Auth

/-- Modelled from the spec: the type `time.Time` of the expiry is declared
outside the repository; an instant is kept as the calendar year that
`t.Year()` reports and the nanoseconds elapsed within that year. -/
structure Time where
  year : Int
  nanos : Nat
  deriving DecidableEq

/-- Modelled from the spec: the type `oauth2.Token` is declared outside the
repository; a credential is the access token, the token type, the refresh
token and the expiry. -/
structure Token where
  accessToken : String
  tokenType : String
  refreshToken : String
  expiry : Time
  deriving DecidableEq

/-- The package `encoding/json` on a `Token`, as far as its text goes: the
JSON text of a token whose fields can be encoded, and what the parser stores
into a fresh `oauth2.Token` from a stream that is not empty. -/
structure Codec where
  render : Token → String
  parse : String → Except String Token

/-- The marshalling step of `json.NewEncoder(f).Encode(token)`: the field
`Expiry` is encoded by `Time.MarshalJSON`, which refuses a year outside
0..9999; the error comes back before anything is written. -/
def marshal (codec : Codec) (token : Token) : Except String String :=
  if 0 ≤ token.expiry.year ∧ token.expiry.year < 10000 then
    .ok (codec.render token)
  else
    .error ("json: error calling MarshalJSON for type time.Time: "
      ++ "Time.MarshalJSON: year outside of range [0,9999]")

/-- The call `json.NewDecoder(f).Decode(t)` on a file with the given content:
a stream without a byte ends with `io.EOF`. -/
def decodeStream (codec : Codec) (content : String) : Except String Token :=
  if content = "" then .error "EOF" else codec.parse content

/-- The process environment read by `tokenCacheFile`: the home directory of
`user.Current()`, `filepath.Join` and the error of `os.MkdirAll`. -/
structure Env where
  home : Except String String
  join : String → String → String
  mkdirAll : String → Option String

/-- The files of the operating system: the content stored under each path
(`none` when there is no such file) and the error, if any, with which an
open, a write or a close of a path fails. -/
structure FileSys where
  files : String → Option String
  openErr : String → Option String
  writeErr : String → Option String
  closeErr : String → Option String

/-- The file system with the content of `path` replaced. -/
def FileSys.store (fs : FileSys) (path content : String) : FileSys :=
  ⟨fun p => if p = path then some content else fs.files p,
    fs.openErr, fs.writeErr, fs.closeErr⟩

/-- The call `os.Open(path)`: the content a reader of the handle sees. -/
def osOpen (fs : FileSys) (path : String) : Except String String :=
  match fs.openErr path with
  | some e => .error e
  | none =>
    match fs.files path with
    | none => .error ("open " ++ path ++ ": no such file or directory")
    | some content => .ok content

/-- The call `os.OpenFile(path, flags, 0600)` for writing, with the flags
`O_CREATE` and `O_TRUNC` given as booleans: a missing file is created empty
only with `O_CREATE`, an existing one is emptied only with `O_TRUNC`. -/
def osOpenFile (fs : FileSys) (path : String) (oCreate oTrunc : Bool) :
    Except String FileSys :=
  match fs.openErr path with
  | some e => .error e
  | none =>
    match fs.files path with
    | none =>
      if oCreate then .ok (fs.store path "")
      else .error ("open " ++ path ++ ": no such file or directory")
    | some _ => if oTrunc then .ok (fs.store path "") else .ok fs

/-- A write of `data` at `offset` through a handle opened without
`O_APPEND`: the bytes at that place are overwritten, the rest is kept. -/
def osWrite (fs : FileSys) (path : String) (offset : Nat) (data : String) : FileSys :=
  match fs.files path with
  | none => fs
  | some old =>
    fs.store path
      (String.mk (old.data.take offset ++ data.data ++ old.data.drop (offset + data.length)))

/-- The function `tokenCacheFile` of `auth/cmd.go`. -/
def tokenCacheFile (env : Env) : Except String String :=
  match env.home with
  | .error e => .error e
  | .ok homeDir =>
    let tokenCacheDir := env.join homeDir ".credentials"
    match env.mkdirAll tokenCacheDir with
    | some e => .error e
    | none => .ok (env.join tokenCacheDir "sheets.googleapis.com-nlp-dictionaries.json")

/-- The function `saveToken` of `auth/cmd.go`: the file system afterwards and
the returned error.  `Encode` marshals first and then writes the text and a
newline in one write at offset 0; the deferred `f.Close()` reports its error
when nothing failed before. -/
def saveToken (codec : Codec) (fs : FileSys) (file : String) (token : Token) :
    FileSys × Option String :=
  match osOpenFile fs file true true with
  | .error e => (fs, some ("Unable to cache oauth token: " ++ e))
  | .ok fs1 =>
    match marshal codec token with
    | .error e => (fs1, some e)
    | .ok text =>
      match fs1.writeErr file with
      | some e => (fs1, some e)
      | none =>
        let fs2 := osWrite fs1 file 0 (text ++ "\n")
        (fs2, fs2.closeErr file)

/-- The function `TokenFromCache` of `auth/cmd.go`.  On an error the Go
function also returns the partly filled token, which its callers drop. -/
def TokenFromCache (env : Env) (codec : Codec) (fs : FileSys) : Except String Token :=
  match tokenCacheFile env with
  | .error e => .error ("Unable to get path to cached credential file. " ++ e)
  | .ok cacheFile =>
    match osOpen fs cacheFile with
    | .error e => .error e
    | .ok content =>
      match decodeStream codec content with
      | .error e => .error e
      | .ok t =>
        match fs.closeErr cacheFile with
        | some e => .error e
        | none => .ok t

/-- A sample environment: the home directory `/home/u`, paths joined with a
slash, directories that can be created. -/
def sampleEnv : Env :=
  ⟨.ok "/home/u", fun a b => a ++ "/" ++ b, fun _ => none⟩

/-- Reading a decimal number. -/
def readDigits (s : String) : Nat :=
  s.data.foldl (fun acc ch => 10 * acc + (ch.toNat - 48)) 0

/-- A sample codec that writes the fields on five lines and reads them back
from the lines; the year and the nanoseconds are printed in decimal. -/
def sampleCodec : Codec :=
  ⟨fun t => t.accessToken ++ "\n" ++ t.tokenType ++ "\n" ++ t.refreshToken ++ "\n"
      ++ toString t.expiry.year ++ "\n" ++ toString t.expiry.nanos,
    fun s =>
      match stringsSplit s '\n' with
      | [a, b, c, y, n, _] => .ok ⟨a, b, c, ⟨Int.ofNat (readDigits y), readDigits n⟩⟩
      | _ => .error "bad token"⟩

/-- A sample file system in which every path already holds an older, longer
token and no call fails. -/
def sampleFiles : FileSys :=
  ⟨fun _ => some "an-older-and-much-longer-access-token\nBearer\nold-refresh\n2023\n7\n",
    fun _ => none, fun _ => none, fun _ => none⟩

/-- A sample token. -/
def sampleToken : Token := ⟨"ya29.a0", "Bearer", "1//0g", ⟨2026, 26524800⟩⟩

/-- A token whose expiry lies in the year 10000. -/
def lateToken : Token := ⟨"ya29.a0", "Bearer", "1//0g", ⟨10000, 0⟩⟩

/-- The cache location in the sample environment. -/
def samplePath : String :=
  "/home/u/.credentials/sheets.googleapis.com-nlp-dictionaries.json"

end Auth

/-! # Theorems -/

theorem utf8ByteSize_eq_zero_iff (s : String) : s.utf8ByteSize = 0 ↔ s = "" := by
  cases s with
  | mk cs =>
    cases cs with
    | nil => exact ⟨fun _ => rfl, fun _ => rfl⟩
    | cons c cs =>
      constructor
      · intro h
        have hpos := Char.utf8Size_pos c
        simp only [String.utf8ByteSize, String.utf8ByteSize.go] at h
        omega
      · intro h
        exact absurd (congrArg String.data h) (by simp)

theorem splitChars_ne_nil (sep : Char) (cs : List Char) : splitChars sep cs ≠ [] := by
  cases cs with
  | nil => simp [splitChars]
  | cons c cs =>
    unfold splitChars
    split
    · simp
    · split <;> simp

theorem splitChars_sep_not_mem (sep : Char) :
    ∀ (cs : List Char), ∀ f ∈ splitChars sep cs, sep ∉ f := by
  intro cs
  induction cs with
  | nil => intro f hf; simp [splitChars] at hf; subst hf; simp
  | cons c cs ih =>
    intro f hf
    unfold splitChars at hf
    split at hf
    · rcases List.mem_cons.mp hf with h | h
      · subst h; simp
      · exact ih f h
    · rename_i hne
      split at hf
      · simp at hf; subst hf; simpa using fun h => hne h.symm
      · rename_i g gs heq
        rcases List.mem_cons.mp hf with h | h
        · subst h
          have hg := ih g (by rw [heq]; simp)
          intro hmem
          rcases List.mem_cons.mp hmem with h1 | h1
          · exact hne h1.symm
          · exact hg h1
        · exact ih f (by rw [heq]; exact List.mem_cons_of_mem _ h)

theorem splitChars_of_not_mem (sep : Char) :
    ∀ (a : List Char), sep ∉ a → splitChars sep a = [a] := by
  intro a
  induction a with
  | nil => intro _; rfl
  | cons c cs ih =>
    intro h
    have hc : ¬ c = sep := fun e => h (by simp [e])
    have hcs : sep ∉ cs := fun e => h (List.mem_cons_of_mem _ e)
    simp [splitChars, hc, ih hcs]

theorem splitChars_append_sep (sep : Char) (rest : List Char) :
    ∀ (a : List Char), sep ∉ a →
      splitChars sep (a ++ sep :: rest) = a :: splitChars sep rest := by
  intro a
  induction a with
  | nil => intro _; simp [splitChars]
  | cons c cs ih =>
    intro h
    have hc : ¬ c = sep := fun e => h (by simp [e])
    have hcs : sep ∉ cs := fun e => h (List.mem_cons_of_mem _ e)
    simp [splitChars, hc, ih hcs]

theorem stringsSplit_ne_nil (s : String) (sep : Char) : stringsSplit s sep ≠ [] := by
  simp [stringsSplit, splitChars_ne_nil]

theorem stringsSplit_length_pos (s : String) (sep : Char) :
    0 < (stringsSplit s sep).length :=
  List.length_pos.mpr (stringsSplit_ne_nil s sep)

theorem stringsSplit_sep_not_mem (s : String) (sep : Char) :
    ∀ f ∈ stringsSplit s sep, sep ∉ f.data := by
  intro f hf
  simp only [stringsSplit, List.mem_map] at hf
  obtain ⟨g, hg, rfl⟩ := hf
  exact splitChars_sep_not_mem sep s.data g hg

theorem stringsSplit_stringsJoin (sep : Char) :
    ∀ (ts : List String), ts ≠ [] → (∀ t ∈ ts, sep ∉ t.data) →
      stringsSplit (stringsJoin ts (String.singleton sep)) sep = ts := by
  intro ts
  induction ts with
  | nil => intro h; exact absurd rfl h
  | cons a rest ih =>
    intro _ hmem
    cases rest with
    | nil =>
      simp [stringsJoin, stringsSplit, splitChars_of_not_mem sep a.data (hmem a (by simp))]
    | cons b rest =>
      have ha := hmem a (by simp)
      have hrest := ih (by simp) (fun t ht => hmem t (List.mem_cons_of_mem _ ht))
      simp only [stringsSplit] at hrest ⊢
      simp only [stringsJoin, String.data_append, String.singleton, List.append_assoc]
      show List.map String.mk (splitChars sep (a.data ++ (sep :: (stringsJoin (b :: rest) (String.singleton sep)).data))) = _
      rw [splitChars_append_sep sep _ a.data ha, List.map_cons, hrest]

namespace Upload

theorem encodeLoop_cons_empty (rest : List String) (rows : List Row) (cols n : Nat) :
    encodeLoop ("" :: rest) rows cols n = .error "has empty line" := by
  simp [encodeLoop, String.utf8ByteSize, String.utf8ByteSize.go]

theorem encodeLoop_cons_mismatch (line : String) (rest : List String) (rows : List Row)
    (cols n : Nat) (hl : line ≠ "") (hc : cols ≠ 0)
    (hne : (stringsSplit line ',').length ≠ cols) :
    encodeLoop (line :: rest) rows cols n
      = .error ("invalid number of columns: " ++ line) := by
  have h0 : ¬ line.utf8ByteSize = 0 := fun h => hl ((utf8ByteSize_eq_zero_iff line).mp h)
  have h1 : ¬ cols = (stringsSplit line ',').length := fun h => hne h.symm
  simp [encodeLoop, h0, hc, h1]

theorem encodeLoop_cons_store (line : String) (rest : List String) (rows : List Row)
    (cols n : Nat) (hl : line ≠ "")
    (hc : cols = 0 ∨ (stringsSplit line ',').length = cols) (hn : n < rows.length) :
    encodeLoop (line :: rest) rows cols n
      = encodeLoop rest (rows.set n (rowOfLine line)) (stringsSplit line ',').length (n + 1) := by
  have h0 : ¬ line.utf8ByteSize = 0 := fun h => hl ((utf8ByteSize_eq_zero_iff line).mp h)
  rcases hc with hc | hc
  · subst hc
    simp [encodeLoop, h0, hn, rowOfLine]
  · by_cases hz : cols = 0
    · subst hz
      simp [encodeLoop, h0, hn, rowOfLine]
    · simp [encodeLoop, h0, hn, rowOfLine, hz, hc]

theorem set_append_replicate (pre : List Row) (k : Nat) (r : Row) :
    (pre ++ List.replicate (k + 1) none).set pre.length r
      = (pre ++ [r]) ++ List.replicate k none := by
  induction pre with
  | nil => simp [List.replicate_succ]
  | cons a pre ih => simpa using ih

/-- The loop walks over a block of well-formed lines of width `c`, storing one
row per line. -/
theorem encodeLoop_skip (c : Nat) (rest : List String) (m : Nat) :
    ∀ (good : List String) (pre : List Row),
      (∀ l ∈ good, l ≠ "" ∧ (stringsSplit l ',').length = c) →
      encodeLoop (good ++ rest) (pre ++ List.replicate (good.length + m) none) c pre.length
        = encodeLoop rest (pre ++ good.map rowOfLine ++ List.replicate m none) c
            (pre.length + good.length) := by
  intro good
  induction good with
  | nil => intro pre _; simp
  | cons l g ih =>
    intro pre h
    have hl := h l (by simp)
    have hg : ∀ x ∈ g, x ≠ "" ∧ (stringsSplit x ',').length = c :=
      fun x hx => h x (List.mem_cons_of_mem _ hx)
    have hlen : pre.length < (pre ++ List.replicate ((l :: g).length + m) none).length := by
      simp
    rw [List.cons_append, encodeLoop_cons_store l (g ++ rest) _ c pre.length hl.1 (Or.inr hl.2) hlen]
    have e : (l :: g).length + m = (g.length + m) + 1 := by simp; omega
    rw [e, set_append_replicate]
    simp only [hl.2]
    have := ih (pre ++ [rowOfLine l]) hg
    simp only [List.length_append, List.length_singleton] at this
    rw [this]
    simp [Nat.add_assoc, Nat.add_comm 1]

/-- After a non-empty first line the loop continues with that line's width,
when the table has a slot for it. -/
theorem encode_cons (first : String) (rest : List String) (m : Nat) (hf : first ≠ "") :
    encode (m + 1) (first :: rest)
      = encodeLoop rest ([rowOfLine first] ++ List.replicate m none)
          (stringsSplit first ',').length 1 := by
  unfold encode
  rw [encodeLoop_cons_store first rest _ 0 0 hf (Or.inl rfl) (by simp)]
  simp [List.replicate_succ]

/-- Encode on a block of well-formed lines followed by anything, in a table
with room for the block and `m` more rows. -/
theorem encode_good_append (first : String) (good rest : List String) (m : Nat)
    (hf : first ≠ "")
    (hg : ∀ l ∈ good, l ≠ "" ∧ (stringsSplit l ',').length = (stringsSplit first ',').length) :
    encode (good.length + m + 1) (first :: (good ++ rest))
      = encodeLoop rest
          ((first :: good).map rowOfLine ++ List.replicate m none)
          (stringsSplit first ',').length (good.length + 1) := by
  rw [encode_cons first _ _ hf]
  have := encodeLoop_skip (stringsSplit first ',').length rest m good
    [rowOfLine first] hg
  simp only [List.length_singleton] at this
  rw [this]
  simp [Nat.add_comm]

/-- When the fill pass reads as many lines as were counted, and they are
well-formed, every row of the table is filled from its line. -/
theorem encode_wellformed (lines : List String) (hne : ∀ l ∈ lines, l ≠ "")
    (hw : ∀ l0, lines.head? = some l0 →
      ∀ l ∈ lines, (stringsSplit l ',').length = (stringsSplit l0 ',').length) :
    encode lines.length lines = .ok (lines.map rowOfLine) := by
  cases lines with
  | nil => rfl
  | cons first good =>
    have hf := hne first (by simp)
    have hg : ∀ l ∈ good, l ≠ "" ∧
        (stringsSplit l ',').length = (stringsSplit first ',').length :=
      fun l hl => ⟨hne l (List.mem_cons_of_mem _ hl), hw first rfl l (List.mem_cons_of_mem _ hl)⟩
    have := encode_good_append first good [] 0 hf hg
    simp only [List.append_nil, Nat.add_zero] at this
    rw [List.length_cons, this]
    simp [encodeLoop]

/-- When the fill pass reads no line, every counted row stays nil. -/
theorem encode_nil (rlen : Nat) : encode rlen [] = .ok (List.replicate rlen none) := rfl

/-- A successful loop has seen only non-empty lines, all of the expected
width once a width is known. -/
theorem encodeLoop_ok_inv :
    ∀ (ls : List String) (rows : List Row) (cols n : Nat) (t : List Row),
      cols ≠ 0 → encodeLoop ls rows cols n = .ok t →
      ∀ l ∈ ls, l ≠ "" ∧ (stringsSplit l ',').length = cols := by
  intro ls
  induction ls with
  | nil => intro _ _ _ _ _ _ l hl; simp at hl
  | cons line rest ih =>
    intro rows cols n t hc hok l hl
    by_cases he : line = ""
    · subst he
      rw [encodeLoop_cons_empty] at hok
      cases hok
    · by_cases hw : (stringsSplit line ',').length = cols
      · by_cases hn : n < rows.length
        · rw [encodeLoop_cons_store line rest rows cols n he (Or.inr hw) hn, hw] at hok
          rcases List.mem_cons.mp hl with h | h
          · subst h; exact ⟨he, hw⟩
          · exact ih _ cols (n + 1) t hc hok l h
        · have h0 : ¬ line.utf8ByteSize = 0 :=
            fun h => he ((utf8ByteSize_eq_zero_iff line).mp h)
          simp [encodeLoop, h0, hc, hw, hn] at hok
      · rw [encodeLoop_cons_mismatch line rest rows cols n he hc hw] at hok
        cases hok

/-- A successful encode has seen only non-empty lines of the width of the
first one, whatever the size of the table. -/
theorem encode_ok_inv (rlen : Nat) (first : String) (rest : List String) (t : List Row)
    (hok : encode rlen (first :: rest) = .ok t) :
    first ≠ "" ∧
      ∀ l ∈ rest, l ≠ "" ∧ (stringsSplit l ',').length = (stringsSplit first ',').length := by
  by_cases he : first = ""
  · subst he
    unfold encode at hok
    rw [encodeLoop_cons_empty] at hok
    cases hok
  · refine ⟨he, ?_⟩
    cases rlen with
    | zero =>
      have h0 : ¬ first.utf8ByteSize = 0 :=
        fun h => he ((utf8ByteSize_eq_zero_iff first).mp h)
      simp [encode, encodeLoop, h0] at hok
    | succ m =>
      rw [encode_cons first rest m he] at hok
      exact encodeLoop_ok_inv rest _ _ 1 t
        (Nat.pos_iff_ne_zero.mp (stringsSplit_length_pos first ',')) hok

/-- With enough room in the table the loop ends in a table or in one of its
two errors, never in the out-of-range panic. -/
theorem encodeLoop_cases :
    ∀ (ls : List String) (rows : List Row) (cols n : Nat),
      n + ls.length ≤ rows.length →
      (∃ t, encodeLoop ls rows cols n = .ok t) ∨
      encodeLoop ls rows cols n = .error "has empty line" ∨
      ∃ l ∈ ls, l ≠ "" ∧
        encodeLoop ls rows cols n = .error ("invalid number of columns: " ++ l) := by
  intro ls
  induction ls with
  | nil => intro rows cols n _; exact Or.inl ⟨rows, rfl⟩
  | cons line rest ih =>
    intro rows cols n hlen
    simp only [List.length_cons] at hlen
    by_cases he : line = ""
    · subst he
      exact Or.inr (Or.inl (encodeLoop_cons_empty rest rows cols n))
    · by_cases hok : cols = 0 ∨ (stringsSplit line ',').length = cols
      · rw [encodeLoop_cons_store line rest rows cols n he hok (by omega)]
        rcases ih (rows.set n (rowOfLine line)) (stringsSplit line ',').length (n + 1)
            (by simp; omega) with h | h | ⟨l, hl, hne, h⟩
        · exact Or.inl h
        · exact Or.inr (Or.inl h)
        · exact Or.inr (Or.inr ⟨l, List.mem_cons_of_mem _ hl, hne, h⟩)
      · have hc : cols ≠ 0 := fun h => hok (Or.inl h)
        have hw : (stringsSplit line ',').length ≠ cols := fun h => hok (Or.inr h)
        exact Or.inr (Or.inr ⟨line, by simp, he,
          encodeLoop_cons_mismatch line rest rows cols n he hc hw⟩)

theorem encode_cases (rlen : Nat) (lines : List String) (hroom : lines.length ≤ rlen) :
    (∃ t, encode rlen lines = .ok t) ∨
    encode rlen lines = .error "has empty line" ∨
    ∃ l ∈ lines, l ≠ "" ∧ encode rlen lines = .error ("invalid number of columns: " ++ l) :=
  encodeLoop_cases lines _ 0 0 (by simpa using hroom)

/-- An encode that succeeded has neither an empty line nor a line whose
width differs from the first line's. -/
theorem encode_ok_wellformed (rlen : Nat) (lines : List String) (t : List Row)
    (hok : encode rlen lines = .ok t) :
    (∀ l ∈ lines, l ≠ "") ∧
      ∀ l0, lines.head? = some l0 →
        ∀ l ∈ lines, (stringsSplit l ',').length = (stringsSplit l0 ',').length := by
  cases lines with
  | nil => simp
  | cons first rest =>
    have h := encode_ok_inv rlen first rest t hok
    constructor
    · intro l hl
      rcases List.mem_cons.mp hl with e | e
      · subst e; exact h.1
      · exact (h.2 l e).1
    · intro l0 h0 l hl
      simp only [List.head?_cons, Option.some.injEq] at h0
      subst h0
      rcases List.mem_cons.mp hl with e | e
      · subst e; rfl
      · exact (h.2 l e).2

/-- The first offending line: a list that holds an empty line splits into
lines that are non-empty and of width `c`, then a line that is empty or of
another width. -/
theorem first_offending (c : Nat) :
    ∀ ls : List String, "" ∈ ls →
      ∃ good bad post, ls = good ++ bad :: post ∧
        (∀ l ∈ good, l ≠ "" ∧ (stringsSplit l ',').length = c) ∧
        (bad = "" ∨ (bad ≠ "" ∧ (stringsSplit bad ',').length ≠ c)) := by
  intro ls
  induction ls with
  | nil => intro h; simp at h
  | cons x xs ih =>
    intro hmem
    by_cases hx : x = ""
    · exact ⟨[], x, xs, rfl, by simp, Or.inl hx⟩
    · by_cases hw : (stringsSplit x ',').length = c
      · have hxs : "" ∈ xs := by
          rcases List.mem_cons.mp hmem with h | h
          · exact absurd h.symm hx
          · exact h
        obtain ⟨good, bad, post, hsplit, hgood, hbad⟩ := ih hxs
        refine ⟨x :: good, bad, post, by rw [hsplit]; rfl, ?_, hbad⟩
        intro l hl
        rcases List.mem_cons.mp hl with h | h
        · subst h; exact ⟨hx, hw⟩
        · exact hgood l h
      · exact ⟨[], x, xs, rfl, by simp, Or.inr ⟨hx, hw⟩⟩

end Upload

theorem char_toNat_ofNat (n : Nat) (h : n < 0xd800 ∨ (0xdfff < n ∧ n < 0x110000)) :
    (Char.ofNat n).toNat = n := by
  have hv : n.isValidChar := h
  simp [Char.ofNat, hv, Char.ofNatAux, Char.toNat, UInt32.toNat]

theorem wrapInt64_of_range (x : Int) (h0 : -2 ^ 63 ≤ x) (h1 : x < 2 ^ 63) :
    wrapInt64 x = x := by
  unfold wrapInt64
  omega

theorem stringOfInt_of_valid (x : Int) (h0 : 0 ≤ x)
    (h : x.toNat < 0xd800 ∨ (0xdfff < x.toNat ∧ x.toNat < 0x110000)) :
    stringOfInt x = String.singleton (Char.ofNat x.toNat) := by
  unfold stringOfInt
  rw [if_pos ⟨h0, h⟩]

theorem data_singleton (c : Char) : (String.singleton c).data = [c] := rfl

/-- The text of `string(x)` is a letter `A`..`Z` exactly for the codes 65..90. -/
theorem isColumnLetter_stringOfInt (x : Int) :
    isColumnLetter (stringOfInt x) = true ↔ 65 ≤ x ∧ x ≤ 90 := by
  unfold stringOfInt
  split
  · rename_i h
    have hc := char_toNat_ofNat x.toNat h.2
    simp only [isColumnLetter, data_singleton, hc, decide_eq_true_eq]
    omega
  · rename_i h
    have hc : (Char.ofNat 0xfffd).toNat = 0xfffd := char_toNat_ofNat _ (by omega)
    simp only [isColumnLetter, data_singleton, hc, decide_eq_true_eq]
    constructor
    · intro h'; omega
    · intro h'
      exfalso
      apply h
      omega

/-! ## Range addresses -/

/-- C1: for every sheet name `s` and every column count `n` with
`1 ≤ n ≤ 26`, `rangeFromRows` (on rows whose first row has `n` cells) and
`rangeFromSheet` (on a sheet titled `s` whose grid has `n` columns) both
return exactly `s ++ "!A:" ++ L`, where `L` is the one-character string of
code `64 + n`, a letter `A`..`Z`; so the two addresses agree. -/
theorem range_address_single_letter (s : String) (n : Nat) (h1 : 1 ≤ n) (h26 : n ≤ 26) :
    (∀ (r : Row) (rest : List Row), (rowCells r).length = n →
        Upload.rangeFromRows s (r :: rest)
          = .ok (s ++ "!A:" ++ String.singleton (Char.ofNat (64 + n)))) ∧
    Download.rangeFromSheet ⟨some ⟨s, some ⟨(n : Int)⟩⟩⟩
      = some (s ++ "!A:" ++ String.singleton (Char.ofNat (64 + n))) ∧
    isColumnLetter (String.singleton (Char.ofNat (64 + n))) = true := by
  have hs : stringOfInt (64 + (n : Int)) = String.singleton (Char.ofNat (64 + n)) := by
    have h := stringOfInt_of_valid (64 + (n : Int)) (by omega) (by omega)
    have e : (64 + (n : Int)).toNat = 64 + n := by omega
    rw [h, e]
  refine ⟨?_, ?_, ?_⟩
  · intro r rest hr
    have hz : ¬ n = 0 := by omega
    simp only [Upload.rangeFromRows, hr, hz, if_false, hs]
  · simp only [Download.rangeFromSheet]
    rw [wrapInt64_of_range _ (by omega) (by omega), hs]
  · rw [← hs]
    exact (isColumnLetter_stringOfInt _).mpr (by omega)

/-- C1, at `s = "Data"` and `n = 26`: both functions return `Data!A:Z`. -/
theorem range_address_single_letter_witness :
    Upload.rangeFromRows "Data" [some (List.replicate 26 (Value.str "x"))] = .ok "Data!A:Z" ∧
    Download.rangeFromSheet ⟨some ⟨"Data", some ⟨26⟩⟩⟩ = some "Data!A:Z" :=
  ⟨(range_address_single_letter "Data" 26 (by decide) (by decide)).1 _ [] rfl,
    (range_address_single_letter "Data" 26 (by decide) (by decide)).2.1⟩

/-- C2, as stated, fails: for `n = 27` both functions return the address
`Data!A:[` instead of an error, and `[` is not a letter. -/
theorem range_out_of_bounds_counterexample :
    Upload.rangeFromRows "Data" [some (List.replicate 27 (Value.str "x"))] = .ok "Data!A:[" ∧
    Download.rangeFromSheet ⟨some ⟨"Data", some ⟨27⟩⟩⟩ = some "Data!A:[" ∧
    isColumnLetter "[" = false :=
  ⟨by rfl, by rfl, by rfl⟩

/-- C2, amended: `rangeFromRows` fails with an error when the first row has
no cell (`n < 1`); for `n > 26` neither function fails: `rangeFromRows`
returns `key ++ "!A:" ++ string(64 + n)` and `rangeFromSheet` (for an `int64`
count `n`) returns `title ++ "!A:" ++ string(64 + n)` with `int64`
wrap-around, and in both the end column is not one of the letters `A`..`Z`. -/
theorem range_out_of_bounds :
    (∀ (key : String) (r : Row) (rest : List Row), (rowCells r).length < 1 →
        Upload.rangeFromRows key (r :: rest) = .error "at least one column is required") ∧
    (∀ (key : String) (r : Row) (rest : List Row), 26 < (rowCells r).length →
        Upload.rangeFromRows key (r :: rest)
            = .ok (key ++ "!A:" ++ stringOfInt (64 + ((rowCells r).length : Int))) ∧
          isColumnLetter (stringOfInt (64 + ((rowCells r).length : Int))) = false) ∧
    (∀ (title : String) (n : Int), 26 < n → n < 2 ^ 63 →
        Download.rangeFromSheet ⟨some ⟨title, some ⟨n⟩⟩⟩
            = some (title ++ "!A:" ++ stringOfInt (wrapInt64 (64 + n))) ∧
          isColumnLetter (stringOfInt (wrapInt64 (64 + n))) = false) := by
  refine ⟨?_, ?_, ?_⟩
  · intro key r rest h
    have hz : (rowCells r).length = 0 := by omega
    simp [Upload.rangeFromRows, hz]
  · intro key r rest h
    have hz : ¬ (rowCells r).length = 0 := by omega
    refine ⟨by simp only [Upload.rangeFromRows, hz, if_false], ?_⟩
    rw [Bool.eq_false_iff]
    intro hl
    have := (isColumnLetter_stringOfInt _).mp hl
    omega
  · intro title n h1 h2
    refine ⟨rfl, ?_⟩
    rw [Bool.eq_false_iff]
    intro hl
    have := (isColumnLetter_stringOfInt _).mp hl
    unfold wrapInt64 at this
    omega

/-- C2, amended, at concrete inputs: an empty first row is rejected, 27
columns give the end column `[` in both functions. -/
theorem range_out_of_bounds_witness :
    Upload.rangeFromRows "Data" [some []] = .error "at least one column is required" ∧
    Upload.rangeFromRows "Data" [some (List.replicate 27 (Value.str "x"))] = .ok "Data!A:[" ∧
    Download.rangeFromSheet ⟨some ⟨"Data", some ⟨27⟩⟩⟩ = some "Data!A:[" :=
  ⟨range_out_of_bounds.1 "Data" (some []) [] (by decide),
    (range_out_of_bounds.2.1 "Data" (some (List.replicate 27 (Value.str "x"))) []
      (by decide)).1,
    (range_out_of_bounds.2.2 "Data" 27 (by decide) (by decide)).1⟩

/-! ## Encode -/

/-- C3, at the failing input: the well-formed lines `a,b` and `c,d` read from
an input that cannot seek.  The counting pass sees two lines, the dropped
error of `r.Seek(0, 0)` leaves the second scanner at the end, and the encode
returns a table of two rows that are both nil, not one row per line; `Run`
then fails with "at least one column is required".  On a file that can seek
the same lines give the two rows of the claim. -/
theorem encode_unseekable_rows_unset :
    Upload.encode ["a,b", "c,d"].length (Upload.rescan false ⟨["a,b", "c,d"], none⟩).lines
      = .ok [none, none] ∧
    Upload.Run Upload.sampleGateway ⟨["a,b", "c,d"], none⟩
        (Upload.rescan false ⟨["a,b", "c,d"], none⟩)
      = ([], some "at least one column is required") ∧
    Upload.encode ["a,b", "c,d"].length (Upload.rescan true ⟨["a,b", "c,d"], none⟩).lines
      = .ok [some [.str "a", .str "b"], some [.str "c", .str "d"]] :=
  ⟨by rfl, by rfl, by rfl⟩

/-- C4, at the failing input: the lines `a,b` and `c` read from an input that
cannot seek.  The second scanner finds no line, so the loop never compares a
width: the encode returns two nil rows and `Run` fails with "at least one
column is required", which does not name the line `c`.  On a file that can
seek the encode fails with the column-count error naming `c`. -/
theorem encode_unseekable_no_mismatch :
    Upload.encode ["a,b", "c"].length (Upload.rescan false ⟨["a,b", "c"], none⟩).lines
      = .ok [none, none] ∧
    Upload.Run Upload.sampleGateway ⟨["a,b", "c"], none⟩
        (Upload.rescan false ⟨["a,b", "c"], none⟩)
      = ([], some "at least one column is required") ∧
    Upload.encode ["a,b", "c"].length (Upload.rescan true ⟨["a,b", "c"], none⟩).lines
      = .error "invalid number of columns: c" :=
  ⟨by rfl, by rfl, by rfl⟩

/-- C5, as stated, fails: the lines `a,b`, `c` and the empty line, read the
same in both passes, contain a line of zero length, yet encode fails with the
column-count error of `c`, not with the empty-line error. -/
theorem encode_empty_line_counterexample :
    "" ∈ ["a,b", "c", ""] ∧
    Upload.encode ["a,b", "c", ""].length ["a,b", "c", ""]
      = .error "invalid number of columns: c" ∧
    Upload.encode ["a,b", "c", ""].length ["a,b", "c", ""] ≠ .error "has empty line" := by
  refine ⟨by simp, by rfl, ?_⟩
  intro h
  have h2 : Upload.encode ["a,b", "c", ""].length ["a,b", "c", ""]
      = .error "invalid number of columns: c" := by rfl
  rw [h2] at h
  injection h with h
  exact absurd h (by decide)

/-- C5, amended: when the table has a row for every line the fill pass reads
(`lines.length ≤ rlen`, as on a file that can seek) and the lines hold a line
of zero length, encode fails with the error of the first offending line.  The
lines split into `good`, non-empty lines of the width of the first line, and
the line `bad` after them: either `bad` is empty and the error is "has empty
line", or `bad` is a non-empty line of another width, standing before the
empty line, and the error is the column-count error naming `bad`.  Hence the
error is the empty-line error whenever the lines before the empty line are
non-empty and of one width.  Blank lines are never skipped. -/
theorem encode_empty_line_fails :
    (∀ (rlen : Nat) (lines : List String), lines.length ≤ rlen → "" ∈ lines →
      ∃ good bad post, lines = good ++ bad :: post ∧
        (∀ l ∈ good, l ≠ "") ∧
        (∀ l0, good.head? = some l0 →
          ∀ l ∈ good, (stringsSplit l ',').length = (stringsSplit l0 ',').length) ∧
        ((bad = "" ∧ Upload.encode rlen lines = .error "has empty line") ∨
         (bad ≠ "" ∧ "" ∈ post ∧
          (∃ l0, good.head? = some l0 ∧
            (stringsSplit bad ',').length ≠ (stringsSplit l0 ',').length) ∧
          Upload.encode rlen lines = .error ("invalid number of columns: " ++ bad)))) ∧
    (∀ (rlen : Nat) (good post : List String), (good ++ "" :: post).length ≤ rlen →
        (∀ l ∈ good, l ≠ "") →
        (∀ l0, good.head? = some l0 →
          ∀ l ∈ good, (stringsSplit l ',').length = (stringsSplit l0 ',').length) →
        Upload.encode rlen (good ++ "" :: post) = .error "has empty line") := by
  constructor
  · intro rlen lines hroom hmem
    cases lines with
    | nil => simp at hmem
    | cons first rest =>
      by_cases hf : first = ""
      · subst hf
        exact ⟨[], "", rest, rfl, by simp, by simp,
          Or.inl ⟨rfl, Upload.encodeLoop_cons_empty rest _ 0 0⟩⟩
      · have hrest : "" ∈ rest := by
          rcases List.mem_cons.mp hmem with h | h
          · exact absurd h.symm hf
          · exact h
        obtain ⟨g, bad, post, hsplit, hgood, hbad⟩ :=
          Upload.first_offending (stringsSplit first ',').length rest hrest
        subst hsplit
        simp only [List.length_cons, List.length_append] at hroom
        obtain ⟨m, hm⟩ : ∃ m, rlen = g.length + m + 1 := ⟨rlen - g.length - 1, by omega⟩
        have henc := Upload.encode_good_append first g (bad :: post) m hf hgood
        rw [← hm] at henc
        refine ⟨first :: g, bad, post, rfl, ?_, ?_, ?_⟩
        · intro l hl
          rcases List.mem_cons.mp hl with h | h
          · subst h; exact hf
          · exact (hgood l h).1
        · intro l0 h0 l hl
          simp only [List.head?_cons, Option.some.injEq] at h0
          subst h0
          rcases List.mem_cons.mp hl with h | h
          · subst h; rfl
          · exact (hgood l h).2
        · rcases hbad with hb | ⟨hb, hw⟩
          · subst hb
            exact Or.inl ⟨rfl, by rw [henc]; exact Upload.encodeLoop_cons_empty post _ _ _⟩
          · refine Or.inr ⟨hb, ?_, ⟨first, rfl, hw⟩, ?_⟩
            · rcases List.mem_append.mp hrest with h | h
              · exact absurd rfl (hgood "" h).1
              · rcases List.mem_cons.mp h with h | h
                · exact absurd h.symm hb
                · exact h
            · rw [henc]
              exact Upload.encodeLoop_cons_mismatch bad post _ _ _ hb
                (Nat.pos_iff_ne_zero.mp (stringsSplit_length_pos first ',')) hw
  · intro rlen good post hroom hne hw
    cases good with
    | nil => exact Upload.encodeLoop_cons_empty post _ 0 0
    | cons first rest =>
      have hf := hne first (by simp)
      have hg : ∀ l ∈ rest, l ≠ "" ∧
          (stringsSplit l ',').length = (stringsSplit first ',').length :=
        fun l hl => ⟨hne l (List.mem_cons_of_mem _ hl),
          hw first rfl l (List.mem_cons_of_mem _ hl)⟩
      simp only [List.cons_append, List.length_cons, List.length_append] at hroom
      obtain ⟨m, hm⟩ : ∃ m, rlen = rest.length + m + 1 := ⟨rlen - rest.length - 1, by omega⟩
      rw [List.cons_append, hm, Upload.encode_good_append first rest ("" :: post) m hf hg]
      exact Upload.encodeLoop_cons_empty post _ _ _

/-- C5, amended, at concrete inputs: `a,b`, `c` and the empty line split at the
first offending line, and the example of the specification, `a,b` and the
empty line, fails with the empty-line error. -/
theorem encode_empty_line_fails_witness :
    (∃ good bad post, ["a,b", "c", ""] = good ++ bad :: post ∧
        (∀ l ∈ good, l ≠ "") ∧
        (∀ l0, good.head? = some l0 →
          ∀ l ∈ good, (stringsSplit l ',').length = (stringsSplit l0 ',').length) ∧
        ((bad = "" ∧ Upload.encode 3 ["a,b", "c", ""] = .error "has empty line") ∨
         (bad ≠ "" ∧ "" ∈ post ∧
          (∃ l0, good.head? = some l0 ∧
            (stringsSplit bad ',').length ≠ (stringsSplit l0 ',').length) ∧
          Upload.encode 3 ["a,b", "c", ""]
            = .error ("invalid number of columns: " ++ bad)))) ∧
    Upload.encode 2 (["a,b"] ++ "" :: []) = .error "has empty line" :=
  ⟨encode_empty_line_fails.1 3 ["a,b", "c", ""] (by decide) (by simp),
    encode_empty_line_fails.2 2 ["a,b"] [] (by decide) (by decide)
      (by
        intro l0 h0 l hl
        simp only [List.head?_cons, Option.some.injEq] at h0
        subst h0
        simp only [List.mem_singleton] at hl
        subst hl
        rfl)⟩

/-! ## Join, quoting and the write loop -/

theorem stringsJoin_append_head (x y sep : String) (rest : List String) :
    stringsJoin ((x ++ y) :: rest) sep = x ++ stringsJoin (y :: rest) sep := by
  cases rest with
  | nil => rfl
  | cons c rest => simp [stringsJoin, String.append_assoc]

theorem intercalate_go_eq_stringsJoin (sep : String) :
    ∀ (rest : List String) (a : String),
      String.intercalate.go a sep rest = stringsJoin (a :: rest) sep := by
  intro rest
  induction rest with
  | nil => intro a; rfl
  | cons b rest ih =>
    intro a
    rw [String.intercalate.go, ih, String.append_assoc, stringsJoin_append_head,
      stringsJoin_append_head]
    simp [stringsJoin, String.append_assoc]

/-- Go's `strings.Join` is the library's `intercalate`. -/
theorem intercalate_eq_stringsJoin (sep : String) (ts : List String) :
    sep.intercalate ts = stringsJoin ts sep := by
  cases ts with
  | nil => rfl
  | cons a rest => exact intercalate_go_eq_stringsJoin sep rest a

namespace Download

/-- Without a write error the loop appends one joined line per row. -/
theorem writeLoop_noFault (hook : Value → String) :
    ∀ (rows : List (List Value)) (k : Nat) (out : List String),
      writeLoop hook (fun _ => none) rows k out
        = (out ++ rows.map (fun row => stringsJoin (row.map hook) ","), none) := by
  intro rows
  induction rows with
  | nil => intro k out; simp [writeLoop]
  | cons row rest ih =>
    intro k out
    simp [writeLoop, ih]

theorem Run_noFault (hook : Value → String) (grid : List (List Value))
    (h : 1 < grid.length) :
    Run hook noFault grid
      = ⟨true, grid.map (fun row => stringsJoin (row.map hook) ","), none⟩ := by
  have hn : ¬ grid.length ≤ 1 := by omega
  simp [Run, hn, noFault, writeLoop_noFault]

theorem Run_short (hook : Value → String) (os : FileOps) (grid : List (List Value))
    (h : grid.length ≤ 1) :
    Run hook os grid = ⟨false, [], some "the sheet is empty"⟩ := by
  simp [Run, h]

theorem unquote_quoted (f : String) : unquote ("\"" ++ f ++ "\"") = f := by
  have h : ("\"" ++ f ++ "\"").data = Char.ofNat 34 :: (f.data ++ [Char.ofNat 34]) := by
    simp only [String.data_append]
    rfl
  unfold unquote
  rw [h, List.tail_cons, List.dropLast_concat]

theorem quoted_no_comma (f : String) (h : ',' ∉ f.data) :
    ',' ∉ ("\"" ++ f ++ "\"").data := by
  have hd : ("\"" ++ f ++ "\"").data = Char.ofNat 34 :: (f.data ++ [Char.ofNat 34]) := by
    simp only [String.data_append]
    rfl
  rw [hd]
  intro hm
  rcases List.mem_cons.mp hm with e | e
  · exact absurd e (by decide)
  · rcases List.mem_append.mp e with e | e
    · exact h e
    · simp only [List.mem_singleton] at e
      exact absurd e (by decide)

/-- Splitting the line written for the fields of an input line and removing
the quotes gives the fields back. -/
theorem unquote_split_line (l : String) :
    (stringsSplit
        (stringsJoin (((stringsSplit l ',').map Value.str).map defaultValueToString) ",")
        ',').map unquote
      = stringsSplit l ',' := by
  have hmap : ((stringsSplit l ',').map Value.str).map defaultValueToString
      = (stringsSplit l ',').map (fun f => "\"" ++ f ++ "\"") := by
    rw [List.map_map]
    rfl
  rw [hmap]
  have hsep : ("," : String) = String.singleton ',' := rfl
  rw [hsep, stringsSplit_stringsJoin ',' _
    (by simpa using stringsSplit_ne_nil l ',')
    (by
      intro t ht
      simp only [List.mem_map] at ht
      obtain ⟨f, hf, rfl⟩ := ht
      exact quoted_no_comma f (stringsSplit_sep_not_mem l ',' f hf))]
  rw [List.map_map]
  conv_rhs => rw [← List.map_id (stringsSplit l ',')]
  apply List.map_congr_left
  intro f _
  exact unquote_quoted f

end Download

/-! ## Decode and the round trip -/

/-- C6: on an operating system without faults, the write phase of download's
`Run` is the decode of the specification for every hook and every grid: a
grid of at most one row is rejected with "the sheet is empty" before the file
is opened, otherwise one line per row is written, in order, each the tokens
of the row joined with a single comma.  The default hook quotes a string and
maps every other value to the empty token; with it the example grid gives the
lines `"h1","h2"` and `"v1",`, and with a hook that prints numbers the second
line is `"v1",42`. -/
theorem decode_refines_spec :
    (∀ (hook : Value → String) (grid : List (List Value)),
      Download.Run hook Download.noFault grid
        = match Download.decodeSpec hook grid with
          | .error e => ⟨false, [], some e⟩
          | .ok lines => ⟨true, lines, none⟩) ∧
    (∀ v : String, Download.defaultValueToString (.str v) = "\"" ++ v ++ "\"") ∧
    (∀ n : Int, Download.defaultValueToString (.num n) = "") ∧
    (∀ b : Bool, Download.defaultValueToString (.bool b) = "") ∧
    Download.defaultValueToString .null = "" ∧
    Download.Run Download.defaultValueToString Download.noFault
        [[.str "h1", .str "h2"], [.str "v1", .num 42]]
      = ⟨true, ["\"h1\",\"h2\"", "\"v1\","], none⟩ ∧
    Download.Run Download.stringifyNumbers Download.noFault
        [[.str "h1", .str "h2"], [.str "v1", .num 42]]
      = ⟨true, ["\"h1\",\"h2\"", "\"v1\",42"], none⟩ ∧
    Download.Run Download.defaultValueToString Download.noFault [[.str "h1", .str "h2"]]
      = ⟨false, [], some "the sheet is empty"⟩ := by
  refine ⟨?_, fun _ => rfl, fun _ => rfl, fun _ => rfl, rfl, by rfl, by rfl, by rfl⟩
  intro hook grid
  by_cases h : grid.length ≤ 1
  · simp [Download.Run_short hook _ grid h, Download.decodeSpec, h]
  · rw [Download.Run_noFault hook grid (by omega)]
    simp [Download.decodeSpec, h, intercalate_eq_stringsJoin]

/-- On a table that was filled from the lines, the round trip holds: the
write phase of download with the default hook writes one line per input
line, and splitting each on the comma and removing the first and the last
character of every token gives back the fields. -/
theorem round_trip_of_filled_table (lines : List String) (h2 : 2 ≤ lines.length) :
    ∃ out, Download.Run Download.defaultValueToString Download.noFault
        ((lines.map Upload.rowOfLine).map rowCells) = ⟨true, out, none⟩ ∧
      out.map (fun w => (stringsSplit w ',').map Download.unquote)
        = lines.map (fun l => stringsSplit l ',') := by
  refine ⟨_, Download.Run_noFault _ _ (by simp; omega), ?_⟩
  simp only [List.map_map]
  apply List.map_congr_left
  intro l _
  exact Download.unquote_split_line l

/-- C7, at the failing input: the lines `a,b` and `c,d` read from an input
that cannot seek.  The encode returns two nil rows, download's write phase
with the default hook writes two empty lines for them, and reversing the
quoting gives one empty field per row, not the fields `a`, `b` and `c`, `d`.
On a file that can seek the same lines come back field by field. -/
theorem round_trip_unseekable_loses_fields :
    Upload.encode ["a,b", "c,d"].length (Upload.rescan false ⟨["a,b", "c,d"], none⟩).lines
      = .ok [none, none] ∧
    Download.Run Download.defaultValueToString Download.noFault
        (([none, none] : List Row).map rowCells) = ⟨true, ["", ""], none⟩ ∧
    ["", ""].map (fun w => (stringsSplit w ',').map Download.unquote) = [[""], [""]] ∧
    ["a,b", "c,d"].map (fun l => stringsSplit l ',') = [["a", "b"], ["c", "d"]] ∧
    ["\"a\",\"b\"", "\"c\",\"d\""].map (fun w => (stringsSplit w ',').map Download.unquote)
      = [["a", "b"], ["c", "d"]] :=
  ⟨by rfl, by rfl, by rfl, by rfl, by rfl⟩

/-- C9, as stated, fails: the grid with the rows `a, b` and `c` is not
rectangular, yet download writes both of its rows. -/
theorem download_nonrectangular_counterexample :
    (Download.Run Download.defaultValueToString Download.noFault
        [[.str "a", .str "b"], [.str "c"]]).written = ["\"a\",\"b\"", "\"c\""] ∧
    ([.str "a", .str "b"] : List Value).length ≠ ([.str "c"] : List Value).length :=
  ⟨by rfl, by decide⟩

/-- C9, amended: whatever the operating system does, download opens the output
file and writes a line only for a grid of more than one row; a grid that is
empty or header-only is rejected with "the sheet is empty" with the file
unopened and nothing written.  The widths of the rows are not compared: on
an operating system without faults every grid of more than one row is
written, one line per row. -/
theorem download_writes_only_checked_grid (hook : Value → String)
    (os : Download.FileOps) (grid : List (List Value)) :
    ((Download.Run hook os grid).written ≠ [] → 1 < grid.length) ∧
    ((Download.Run hook os grid).opened = true → 1 < grid.length) ∧
    (grid.length ≤ 1 →
      Download.Run hook os grid = ⟨false, [], some "the sheet is empty"⟩) ∧
    (1 < grid.length →
      Download.Run hook Download.noFault grid
        = ⟨true, grid.map (fun row => stringsJoin (row.map hook) ","), none⟩) := by
  refine ⟨?_, ?_, Download.Run_short hook os grid, Download.Run_noFault hook grid⟩
  · intro hwr
    by_contra hlen
    rw [Download.Run_short hook os grid (by omega)] at hwr
    exact hwr rfl
  · intro hop
    by_contra hlen
    rw [Download.Run_short hook os grid (by omega)] at hop
    cases hop

/-- C9, amended, at concrete grids: the ragged grid is written, the
header-only grid is rejected. -/
theorem download_writes_only_checked_grid_witness :
    1 < ([[.str "a", .str "b"], [.str "c"]] : List (List Value)).length ∧
    Download.Run Download.defaultValueToString Download.noFault
        [[.str "h1", .str "h2"]] = ⟨false, [], some "the sheet is empty"⟩ ∧
    Download.Run Download.defaultValueToString Download.noFault
        [[.str "a", .str "b"], [.str "c"]]
      = ⟨true, ["\"a\",\"b\"", "\"c\""], none⟩ :=
  ⟨(download_writes_only_checked_grid Download.defaultValueToString Download.noFault
      [[.str "a", .str "b"], [.str "c"]]).1 (by decide),
    (download_writes_only_checked_grid Download.defaultValueToString Download.noFault
      [[.str "h1", .str "h2"]]).2.2.1 (by decide),
    (download_writes_only_checked_grid Download.defaultValueToString Download.noFault
      [[.str "a", .str "b"], [.str "c"]]).2.2.2 (by decide)⟩

/-! ## Upload and the remote requests -/

namespace Upload

/-- Every way in which `Run` sends a request goes through a successful encode
and a successful `rangeFromRows`. -/
theorem Run_requests (gw : Gateway) (counted filled : Scan) :
    (Run gw counted filled).1 = [] ∨
    ∃ rows rng, encode counted.lines.length filled.lines = .ok rows ∧
      rangeFromRows defaultSheetName rows = .ok rng ∧
      ∀ q ∈ (Run gw counted filled).1,
        q = Request.create "test-title" [defaultSheetName] ∨
        ∃ sheetID, q = Request.update sheetID rng "ROWS" rows := by
  unfold Run
  cases hs : counted.err with
  | some e => exact Or.inl rfl
  | none =>
    simp only []
    cases he : encode counted.lines.length filled.lines with
    | error e => exact Or.inl rfl
    | ok rows =>
      simp only []
      cases hs2 : filled.err with
      | some e => exact Or.inl rfl
      | none =>
        simp only []
        cases hr : rangeFromRows defaultSheetName rows with
        | error e => exact Or.inl rfl
        | ok rng =>
          refine Or.inr ⟨rows, rng, rfl, hr, ?_⟩
          simp only []
          cases hc : gw.create "test-title" [defaultSheetName] with
          | error e => intro q hq; simp at hq; exact Or.inl hq
          | ok res =>
            obtain ⟨sheetID, url⟩ := res
            simp only []
            cases hu : gw.update sheetID rng rows with
            | error e =>
              intro q hq
              simp at hq
              rcases hq with h | h
              · exact Or.inl h
              · exact Or.inr ⟨sheetID, h⟩
            | ok st =>
              intro q hq
              simp at hq
              rcases hq with h | h
              · exact Or.inl h
              · exact Or.inr ⟨sheetID, h⟩

/-- When the encode fails, or `rangeFromRows` fails on its table, `Run`
returns an error without a request. -/
theorem Run_rejects (gw : Gateway) (counted filled : Scan)
    (h : (∃ e, encode counted.lines.length filled.lines = .error e) ∨
      ∃ rows, encode counted.lines.length filled.lines = .ok rows ∧
        ∃ e, rangeFromRows defaultSheetName rows = .error e) :
    ∃ e, Run gw counted filled = ([], some e) := by
  unfold Run
  cases hs : counted.err with
  | some e => exact ⟨e, rfl⟩
  | none =>
    simp only []
    rcases h with ⟨e, he⟩ | ⟨rows, he, e, hr⟩
    · rw [he]
      exact ⟨e, rfl⟩
    · rw [he]
      simp only []
      cases hs2 : filled.err with
      | some e2 => exact ⟨e2, rfl⟩
      | none =>
        simp only []
        rw [hr]
        exact ⟨e, rfl⟩

/-- A table whose rows are all nil has no range. -/
theorem rangeFromRows_replicate_none (key : String) (n : Nat) :
    ∃ e, rangeFromRows key (List.replicate n none) = .error e := by
  cases n with
  | zero => exact ⟨_, rfl⟩
  | succ m => exact ⟨"at least one column is required", by
      simp [List.replicate_succ, rangeFromRows, rowCells]⟩

/-- Malformed lines in the fill pass end `Run` with an error and no request. -/
theorem Run_malformed (gw : Gateway) (counted filled : Scan)
    (h : filled.lines = [] ∨ "" ∈ filled.lines ∨
      ∃ l0, filled.lines.head? = some l0 ∧
        ∃ l ∈ filled.lines, (stringsSplit l ',').length ≠ (stringsSplit l0 ',').length) :
    ∃ e, Run gw counted filled = ([], some e) := by
  apply Run_rejects
  cases he : encode counted.lines.length filled.lines with
  | error e => exact Or.inl ⟨e, rfl⟩
  | ok t =>
    right
    refine ⟨t, rfl, ?_⟩
    have hwf := encode_ok_wellformed _ filled.lines t he
    rcases h with h | h | ⟨l0, h0, l, hl, hne⟩
    · rw [h, encode_nil] at he
      cases he
      exact rangeFromRows_replicate_none _ _
    · exact absurd rfl (hwf.1 "" h)
    · exact absurd (hwf.2 l0 h0 l hl) hne

end Upload

/-- C8: for every remote service and for whatever the two scanners yield, if
the lines of the fill pass are none at all, or hold an empty line, or hold a
line whose field count differs from the first line's, upload's `Run` returns
an error and sends neither the create request nor the update request;
whenever it sends any request, the whole table was encoded and its range
address computed before, and every request sent is the create request or the
update of that table at that address.  The same holds of the lines of the
input file itself, whether it can seek (both passes read these lines) or not
(the fill pass reads none). -/
theorem upload_validates_before_requests (gw : Upload.Gateway)
    (counted filled : Upload.Scan) :
    ((filled.lines = [] ∨ "" ∈ filled.lines ∨
        ∃ l0, filled.lines.head? = some l0 ∧
          ∃ l ∈ filled.lines,
            (stringsSplit l ',').length ≠ (stringsSplit l0 ',').length) →
      ∃ e, Upload.Run gw counted filled = ([], some e)) ∧
    ((Upload.Run gw counted filled).1 ≠ [] →
      ∃ rows rng, Upload.encode counted.lines.length filled.lines = .ok rows ∧
        Upload.rangeFromRows Upload.defaultSheetName rows = .ok rng ∧
        ∀ q ∈ (Upload.Run gw counted filled).1,
          q = Upload.Request.create "test-title" [Upload.defaultSheetName] ∨
          ∃ sheetID, q = Upload.Request.update sheetID rng "ROWS" rows) ∧
    (∀ seekable : Bool,
      (counted.lines = [] ∨ "" ∈ counted.lines ∨
        ∃ l0, counted.lines.head? = some l0 ∧
          ∃ l ∈ counted.lines,
            (stringsSplit l ',').length ≠ (stringsSplit l0 ',').length) →
      ∃ e, Upload.Run gw counted (Upload.rescan seekable counted) = ([], some e)) := by
  refine ⟨Upload.Run_malformed gw counted filled, ?_, ?_⟩
  · intro h
    rcases Upload.Run_requests gw counted filled with h0 | h1
    · exact absurd h0 h
    · exact h1
  · intro seekable h
    cases seekable with
    | true => exact Upload.Run_malformed gw counted _ h
    | false => exact Upload.Run_malformed gw counted _ (Or.inl rfl)

/-- C8 at concrete inputs: the lines `a,b` and `c` are rejected with nothing
sent, from a file that can seek and from one that cannot; the single line
`a,b` is sent after its encode and its range. -/
theorem upload_validates_before_requests_witness :
    (∃ e, Upload.Run Upload.sampleGateway ⟨["a,b", "c"], none⟩ ⟨["a,b", "c"], none⟩
        = ([], some e)) ∧
    (∃ rows rng, Upload.encode 1 ["a,b"] = .ok rows ∧
        Upload.rangeFromRows Upload.defaultSheetName rows = .ok rng ∧
        ∀ q ∈ (Upload.Run Upload.sampleGateway ⟨["a,b"], none⟩ ⟨["a,b"], none⟩).1,
          q = Upload.Request.create "test-title" [Upload.defaultSheetName] ∨
          ∃ sheetID, q = Upload.Request.update sheetID rng "ROWS" rows) ∧
    (∃ e, Upload.Run Upload.sampleGateway ⟨["a,b", "c"], none⟩
        (Upload.rescan false ⟨["a,b", "c"], none⟩) = ([], some e)) :=
  ⟨(upload_validates_before_requests Upload.sampleGateway
      ⟨["a,b", "c"], none⟩ ⟨["a,b", "c"], none⟩).1
      (Or.inr (Or.inr ⟨"a,b", rfl, "c", by simp, by decide⟩)),
    (upload_validates_before_requests Upload.sampleGateway
      ⟨["a,b"], none⟩ ⟨["a,b"], none⟩).2.1 (by decide),
    (upload_validates_before_requests Upload.sampleGateway
      ⟨["a,b", "c"], none⟩ ⟨["a,b", "c"], none⟩).2.2 false
      (Or.inr (Or.inr ⟨"a,b", rfl, "c", by simp, by decide⟩))⟩

/-! ## The credential cache -/

namespace Auth

theorem store_files_self (fs : FileSys) (path content : String) :
    (fs.store path content).files path = some content := by
  simp [FileSys.store]

/-- Opening with `O_CREATE|O_TRUNC` leaves the file empty, whatever it held. -/
theorem osOpenFile_trunc (fs : FileSys) (path : String) (h : fs.openErr path = none) :
    osOpenFile fs path true true = .ok (fs.store path "") := by
  unfold osOpenFile
  rw [h]
  cases fs.files path <;> rfl

/-- The text that `Encode` writes is never empty: it ends in a newline. -/
theorem text_newline_ne_empty (text : String) : text ++ "\n" ≠ "" := by
  intro h
  have h2 := congrArg String.length h
  simp only [String.length_append] at h2
  have h3 : "\n".length = 1 := rfl
  have h4 : "".length = 0 := rfl
  omega

end Auth

/-- C10, as stated, fails: for the token whose expiry lies in the year 10000
`saveToken` does not succeed.  The marshalling of the expiry fails after the
cache file was opened and truncated, so the file is left empty, and the
`TokenFromCache` that follows fails with `EOF` instead of returning the
token. -/
theorem save_then_load_counterexample :
    (Auth.saveToken Auth.sampleCodec Auth.sampleFiles Auth.samplePath Auth.lateToken).2
      = some ("json: error calling MarshalJSON for type time.Time: "
          ++ "Time.MarshalJSON: year outside of range [0,9999]") ∧
    (Auth.saveToken Auth.sampleCodec Auth.sampleFiles Auth.samplePath
        Auth.lateToken).1.files Auth.samplePath = some "" ∧
    Auth.TokenFromCache Auth.sampleEnv Auth.sampleCodec
        (Auth.saveToken Auth.sampleCodec Auth.sampleFiles Auth.samplePath Auth.lateToken).1
      = .error "EOF" :=
  ⟨by rfl, by rfl, by rfl⟩

/-- C10, amended: let the cache location be the one `tokenCacheFile` returns
and let the operating system open, write and close that file.  For every
token `c` whose expiry has a year in 0..9999, whatever the file held before,
`saveToken` succeeds, the cache file then holds exactly the JSON text of `c`
and a newline, nothing of its earlier content, and `TokenFromCache` right
afterwards returns what the JSON parser reads from that text; so it returns
`c` whenever the parser reads the text of `c` back as `c`.  For a token whose
expiry has a year outside 0..9999, `saveToken` fails with the error of
`Time.MarshalJSON`, leaves the cache file empty, and `TokenFromCache` right
afterwards fails with `EOF`. -/
theorem save_then_load (env : Auth.Env) (codec : Auth.Codec) (fs : Auth.FileSys)
    (file : String) (c : Auth.Token)
    (hfile : Auth.tokenCacheFile env = .ok file)
    (hopen : fs.openErr file = none) (hwrite : fs.writeErr file = none)
    (hclose : fs.closeErr file = none) :
    ((0 ≤ c.expiry.year ∧ c.expiry.year < 10000) →
      (Auth.saveToken codec fs file c).2 = none ∧
      (Auth.saveToken codec fs file c).1.files file = some (codec.render c ++ "\n") ∧
      Auth.TokenFromCache env codec (Auth.saveToken codec fs file c).1
        = codec.parse (codec.render c ++ "\n") ∧
      (codec.parse (codec.render c ++ "\n") = .ok c →
        Auth.TokenFromCache env codec (Auth.saveToken codec fs file c).1 = .ok c)) ∧
    (¬ (0 ≤ c.expiry.year ∧ c.expiry.year < 10000) →
      (Auth.saveToken codec fs file c).2
        = some ("json: error calling MarshalJSON for type time.Time: "
            ++ "Time.MarshalJSON: year outside of range [0,9999]") ∧
      (Auth.saveToken codec fs file c).1.files file = some "" ∧
      Auth.TokenFromCache env codec (Auth.saveToken codec fs file c).1 = .error "EOF") := by
  constructor
  · intro hy
    have hsave : Auth.saveToken codec fs file c
        = ((fs.store file "").store file (codec.render c ++ "\n"), none) := by
      unfold Auth.saveToken
      rw [Auth.osOpenFile_trunc fs file hopen]
      simp only [Auth.marshal, hy, and_self, if_true]
      have hw : (fs.store file "").writeErr file = none := hwrite
      have hc : ((fs.store file "").store file (codec.render c ++ "\n")).closeErr file
          = none := hclose
      simp only [hw, Auth.osWrite, Auth.store_files_self]
      have hd : String.mk (List.take 0 "".data ++ (codec.render c ++ "\n").data
          ++ List.drop (0 + (codec.render c ++ "\n").length) "".data)
          = codec.render c ++ "\n" := by
        apply String.ext
        simp
      rw [hd, hc]
    have hload : Auth.TokenFromCache env codec (Auth.saveToken codec fs file c).1
        = codec.parse (codec.render c ++ "\n") := by
      rw [hsave]
      unfold Auth.TokenFromCache
      rw [hfile]
      have ho : ((fs.store file "").store file (codec.render c ++ "\n")).openErr file
          = none := hopen
      have hc : ((fs.store file "").store file (codec.render c ++ "\n")).closeErr file
          = none := hclose
      simp only [Auth.osOpen, ho, Auth.store_files_self, Auth.decodeStream,
        Auth.text_newline_ne_empty, if_false, hc]
      cases codec.parse (codec.render c ++ "\n") <;> rfl
    refine ⟨by rw [hsave], by rw [hsave]; exact Auth.store_files_self _ _ _, hload, ?_⟩
    intro hp
    rw [hload, hp]
  · intro hy
    have hsave : Auth.saveToken codec fs file c
        = (fs.store file "", some ("json: error calling MarshalJSON for type time.Time: "
            ++ "Time.MarshalJSON: year outside of range [0,9999]")) := by
      unfold Auth.saveToken
      rw [Auth.osOpenFile_trunc fs file hopen]
      simp only [Auth.marshal, hy, if_false]
    refine ⟨by rw [hsave], by rw [hsave]; exact Auth.store_files_self _ _ _, ?_⟩
    rw [hsave]
    unfold Auth.TokenFromCache
    rw [hfile]
    have ho : (fs.store file "").openErr file = none := hopen
    simp only [Auth.osOpen, ho, Auth.store_files_self, Auth.decodeStream, if_true]

/-- C10, amended, on samples: a token of the year 2026 saved over an older,
longer cache file is read back unchanged; the token of the year 10000 is not
saved and leaves the file empty. -/
theorem save_then_load_witness :
    (Auth.saveToken Auth.sampleCodec Auth.sampleFiles Auth.samplePath
        Auth.sampleToken).2 = none ∧
    Auth.TokenFromCache Auth.sampleEnv Auth.sampleCodec
        (Auth.saveToken Auth.sampleCodec Auth.sampleFiles Auth.samplePath
          Auth.sampleToken).1 = .ok Auth.sampleToken ∧
    (Auth.saveToken Auth.sampleCodec Auth.sampleFiles Auth.samplePath
        Auth.lateToken).1.files Auth.samplePath = some "" :=
  ⟨((save_then_load Auth.sampleEnv Auth.sampleCodec Auth.sampleFiles Auth.samplePath
      Auth.sampleToken (by rfl) rfl rfl rfl).1 (by decide)).1,
    ((save_then_load Auth.sampleEnv Auth.sampleCodec Auth.sampleFiles Auth.samplePath
      Auth.sampleToken (by rfl) rfl rfl rfl).1 (by decide)).2.2.2 (by rfl),
    ((save_then_load Auth.sampleEnv Auth.sampleCodec Auth.sampleFiles Auth.samplePath
      Auth.lateToken (by rfl) rfl rfl rfl).2 (by decide)).2.1⟩

end GSSheets
